import Mathlib

/-!
Verification of the streaming response interpreter of `pysnow`
(`src/pysnow/response.py`) and the token handling of
`src/pysnow/oauth_client.py`.

The embedding works over the event stream produced by `ijson.parse`:
JSON values are modelled by `JVal`, and `jevents` produces the ijson
event sequence (prefix, event kind, value) of a document, with prefixes
being dotted paths.  Python strings are modelled as `List Char`.
`ObjectBuilder` is a functional translation of `ijson.common.ObjectBuilder`:
the mutable builder attaches each container to its parent when the
container opens, so reading `builder.value` at any moment shows the
current partially-built root; here frames are kept on a stack and attached
when they close, and `ObjectBuilder.value` reconstructs the same
"current root" view that the mutable attribute read would give.
-/

/-- Python strings (used for keys and dotted ijson prefixes). -/
abbrev Key := List Char

/-- JSON values as delivered by the response byte stream. -/
inductive JVal where
  | null : JVal
  | bool (b : Bool) : JVal
  | num (n : Int) : JVal
  | str (s : List Char) : JVal
  | arr (items : List JVal) : JVal
  | obj (fields : List (Key × JVal)) : JVal

instance : Inhabited JVal := ⟨JVal.null⟩

/-- ijson joins path components with dots to form the event prefix. -/
def dotJoin : List Key → List Char
  | [] => []
  | [s] => s
  | s :: rest => s ++ '.' :: dotJoin rest

/-- One ijson parse event: dotted prefix, event kind, optional value.
The event kind is one of `start_map`, `map_key`, `end_map`,
`start_array`, `end_array`, `null`, `boolean`, `number`, `string`;
`map_key` carries the key as a string value. -/
structure JEvent where
  pfx : List Char
  event : String
  value : Option JVal

mutual

/-- The ijson event stream of a JSON value placed at a given path. -/
def jevents : JVal → List Key → List JEvent
  | .null, path => [⟨dotJoin path, "null", some .null⟩]
  | .bool b, path => [⟨dotJoin path, "boolean", some (.bool b)⟩]
  | .num n, path => [⟨dotJoin path, "number", some (.num n)⟩]
  | .str s, path => [⟨dotJoin path, "string", some (.str s)⟩]
  | .arr items, path =>
      ⟨dotJoin path, "start_array", none⟩ ::
        (jitemEvents items path ++ [⟨dotJoin path, "end_array", none⟩])
  | .obj fields, path =>
      ⟨dotJoin path, "start_map", none⟩ ::
        (jfieldEvents fields path ++ [⟨dotJoin path, "end_map", none⟩])
termination_by v _ => sizeOf v
decreasing_by all_goals (simp_arith; try omega)

/-- Events of an object's fields: for each key a `map_key` event at the
object's own prefix, then the events of the value at the extended path. -/
def jfieldEvents : List (Key × JVal) → List Key → List JEvent
  | [], _ => []
  | (k, v) :: rest, path =>
      ⟨dotJoin path, "map_key", some (.str k)⟩ ::
        (jevents v (path ++ [k]) ++ jfieldEvents rest path)
termination_by f _ => sizeOf f
decreasing_by all_goals (simp_arith; try omega)

/-- Events of an array's items; ijson extends the path with `item`. -/
def jitemEvents : List JVal → List Key → List JEvent
  | [], _ => []
  | v :: rest, path => jevents v (path ++ ["item".data]) ++ jitemEvents rest path
termination_by l _ => sizeOf l
decreasing_by all_goals (simp_arith; try omega)

end

/-- A partially built container: an array collecting items (reversed) or
a map collecting fields (reversed) with an optional pending key. -/
inductive BFrame where
  | arr (items : List JVal)
  | obj (fields : List (Key × JVal)) (key : Option Key)

/-- Functional state of `ijson.common.ObjectBuilder`: a stack of open
containers (innermost first) and the completed root value, if any. -/
structure ObjectBuilder where
  stack : List BFrame
  val : Option JVal

def ObjectBuilder.init : ObjectBuilder := ⟨[], none⟩

/-- Deliver a finished value to the innermost open container, or make it
the root value when no container is open. -/
def ObjectBuilder.push (b : ObjectBuilder) (v : JVal) : ObjectBuilder :=
  match b.stack with
  | [] => { stack := [], val := some v }
  | .arr items :: rest => { b with stack := .arr (v :: items) :: rest }
  | .obj fields (some k) :: rest => { b with stack := .obj ((k, v) :: fields) none :: rest }
  | .obj _ none :: _ => b

/-- `ObjectBuilder.event(event, value)`: route one parse event into the
builder (`map_key` records the pending key, `start_*` opens a container,
`end_*` closes the innermost container, scalars are delivered directly). -/
def ObjectBuilder.event (b : ObjectBuilder) (ev : String) (value : Option JVal) : ObjectBuilder :=
  if ev = "map_key" then
    match b.stack, value with
    | .obj fields _ :: rest, some (.str k) => { b with stack := .obj fields (some k) :: rest }
    | _, _ => b
  else if ev = "start_map" then
    { b with stack := .obj [] none :: b.stack }
  else if ev = "end_map" then
    match b.stack with
    | .obj fields _ :: rest => ObjectBuilder.push { b with stack := rest } (.obj fields.reverse)
    | _ => b
  else if ev = "start_array" then
    { b with stack := .arr [] :: b.stack }
  else if ev = "end_array" then
    match b.stack with
    | .arr items :: rest => ObjectBuilder.push { b with stack := rest } (.arr items.reverse)
    | _ => b
  else
    match value with
    | some v => b.push v
    | none => b

/-- Close a frame into the value it currently denotes. -/
def BFrame.close : BFrame → JVal
  | .arr items => .arr items.reverse
  | .obj fields _ => .obj fields.reverse

/-- Attach a value built from an inner frame through the remaining open
frames, mirroring that the mutable builder had already linked each open
container into its parent. -/
def attachUp : List BFrame → JVal → JVal
  | [], v => v
  | .arr items :: rest, v => attachUp rest (.arr (items.reverse ++ [v]))
  | .obj fields (some k) :: rest, v => attachUp rest (.obj (fields.reverse ++ [(k, v)]))
  | .obj fields none :: rest, _ => attachUp rest (.obj fields.reverse)

/-- Reading the `value` attribute of the mutable builder: the finished
root if building is complete, otherwise the current partially-built root. -/
def ObjectBuilder.value (b : ObjectBuilder) : Option JVal :=
  match b.stack with
  | [] => b.val
  | f :: rest => some (attachUp rest f.close)

/-- Feed a list of events into a builder in order. -/
def feedMany (b : ObjectBuilder) (es : List JEvent) : ObjectBuilder :=
  es.foldl (fun b e => b.event e.event e.value) b

/-- Mutable state of one `_parse_response` pass: the three root-shape
flags, the current builder, the record count (`self.count`) and the
records yielded so far. -/
structure PState where
  has_result_single : Bool
  has_result_many : Bool
  has_error : Bool
  builder : ObjectBuilder
  count : Nat
  yielded : List JVal

def initState : PState := ⟨false, false, false, .init, 0, []⟩

def pfxError : List Char := "error".data
def pfxResult : List Char := "result".data
def pfxResultItem : List Char := "result.item".data

/-- One iteration of the `for prefix, event, value in ijson.parse(...)`
loop of `_parse_response`.  `.error` is the `raise ResponseError(...)`
exit and carries the state at the raise together with the error payload
(`builder.value` read without feeding the closing event, which the
mutable builder nevertheless shows complete). -/
def pstep (s : PState) (e : JEvent) : Except (PState × JVal) PState :=
  let s1 : PState :=
    if e.pfx = pfxError ∧ e.event = "start_map" then
      { s with has_error := true, builder := .init }
    else if e.pfx = pfxResult ∧ (e.event = "start_map" ∨ e.event = "start_array") then
      if e.event = "start_map" then
        { s with builder := .init, has_result_single := true }
      else
        { s with builder := .init, has_result_many := true }
    else s
  if s1.has_result_many then
    if e.pfx = pfxResultItem ∧ e.event = "end_map" then
      let b := s1.builder.event e.event e.value
      .ok { s1 with builder := b, count := s1.count + 1,
                    yielded := s1.yielded ++ [b.value.getD .null] }
    else if pfxResultItem.isPrefixOf e.pfx then
      .ok { s1 with builder := s1.builder.event e.event e.value }
    else
      .ok s1
  else if s1.has_result_single then
    if e.pfx = pfxResult ∧ e.event = "end_map" then
      let b := s1.builder.event e.event e.value
      .ok { s1 with builder := b, count := s1.count + 1,
                    yielded := s1.yielded ++ [b.value.getD .null] }
    else if pfxResult.isPrefixOf e.pfx then
      .ok { s1 with builder := s1.builder.event e.event e.value }
    else
      .ok s1
  else if s1.has_error then
    if e.pfx = pfxError ∧ e.event = "end_map" then
      .error (s1, s1.builder.value.getD .null)
    else if pfxError.isPrefixOf e.pfx then
      .ok { s1 with builder := s1.builder.event e.event e.value }
    else
      .ok s1
  else
    .ok s1

/-- Run the event loop of `_parse_response` over a whole event stream. -/
def runEvents (s : PState) : List JEvent → Except (PState × JVal) PState
  | [] => .ok s
  | e :: es =>
    match pstep s e with
    | .ok s2 => runEvents s2 es
    | .error x => .error x

/-- The exceptions of the response layer (`pysnow.exceptions`), plus the
`HTTPError` of `requests` and Python's `StopIteration`.  `responseError`
carries the assembled error object of the document. -/
inductive PErr where
  | responseError (errObj : JVal)
  | noResults
  | missingResult
  | multipleResults
  | httpError (status : Nat)
  | stopIteration

/-- Observable outcome of iterating one (lazy) record sequence to its
end: the records yielded in order, the exception that terminated the
iteration (if any, raised after the listed records), and the final value
of `self.count`. -/
structure PResult where
  records : List JVal
  err : Option PErr
  count : Nat

/-- The post-loop checks of `_parse_response` (lines 99-108): the
empty-result branch, then the missing-result branch. -/
def finishParse (raise_on_empty : Bool) (s : PState) : PResult :=
  if (s.has_result_single || s.has_result_many) && (s.count == 0) then
    if raise_on_empty then
      { records := s.yielded, err := some .noResults, count := s.count }
    else
      { records := s.yielded ++ [.obj []], err := none, count := s.count }
  else if !(s.has_result_single || s.has_result_many || s.has_error) then
    { records := s.yielded, err := some .missingResult, count := s.count }
  else
    { records := s.yielded, err := none, count := s.count }

/-- `Response._parse_response` as a whole: the outcome of iterating the
generator over a given ijson event stream. -/
def parse_response (raise_on_empty : Bool) (events : List JEvent) : PResult :=
  match runEvents initState events with
  | .error (s, v) => { records := s.yielded, err := some (.responseError v), count := s.count }
  | .ok s => finishParse raise_on_empty s

/-- The HTTP response handed to `Response`: status code, request method
and the raw body, represented by the ijson event stream that
`ijson.parse` would produce from its bytes. -/
structure HttpResponse where
  status_code : Nat
  method : String
  raw : List JEvent

def record_deleted : JVal := .obj [("status".data, .str "record deleted".data)]

/-- `Response._get_validated_response` flattened by `chain.from_iterable`
as in `all()`: the DELETE/204 short-circuit, `raise_for_status` (an
`HTTPError` for status 400-599), the 404 compatibility branch — whose
non-raising arm yields `[{}]` and then falls through to parsing the raw
body — and otherwise the parse of the byte stream. -/
def get_validated_response (resp : HttpResponse) (raise_on_empty : Bool) : PResult :=
  if resp.method = "DELETE" ∧ resp.status_code = 204 then
    { records := [record_deleted], err := none, count := 0 }
  else if 400 ≤ resp.status_code ∧ resp.status_code < 600 then
    if resp.status_code = 404 then
      if raise_on_empty then
        { records := [], err := some .noResults, count := 0 }
      else
        let p := parse_response raise_on_empty resp.raw
        { records := .obj [] :: p.records, err := p.err, count := p.count }
    else
      { records := [], err := some (.httpError resp.status_code), count := 0 }
  else
    parse_response raise_on_empty resp.raw

/-- The `Response` object state an accessor can observe and mutate:
the wrapped response and the `_raise_on_empty` flag. -/
structure Response where
  _response : HttpResponse
  _raise_on_empty : Bool

/-- `Response.all()`: the flattened lazy record sequence, fully iterated. -/
def Response.all (r : Response) : PResult :=
  get_validated_response r._response r._raise_on_empty

/-- `next()` on the sequence: the first record, or the exception met
before any record (Python's `StopIteration` when the sequence is simply
exhausted). -/
def firstOf (p : PResult) : Except PErr JVal :=
  match p.records with
  | v :: _ => .ok v
  | [] =>
    match p.err with
    | some e => .error e
    | none => .error .stopIteration

/-- `one()`'s pull-then-peek on the sequence: take the first record, then
attempt a second `next()`; a second record means `MultipleResults`, and an
exception pending right after a single record propagates from the peek. -/
def oneOf (p : PResult) : Except PErr JVal :=
  match p.records with
  | [] =>
    match p.err with
    | some e => .error e
    | none => .error .stopIteration
  | [v] =>
    match p.err with
    | some e => .error e
    | none => .ok v
  | _ :: _ :: _ => .error .multipleResults

/-- `Response.first()`: sets `self._raise_on_empty = True`, then pulls one
record from `all()`.  Returns the call's outcome and the updated object. -/
def Response.first (r : Response) : Except PErr JVal × Response :=
  let r2 : Response := { r with _raise_on_empty := true }
  (firstOf r2.all, r2)

/-- `Response.first_or_none()`: `first()` with `NoResults` turned into `None`. -/
def Response.first_or_none (r : Response) : Except PErr (Option JVal) × Response :=
  let res := r.first
  (match res.1 with
   | .ok v => .ok (some v)
   | .error .noResults => .ok none
   | .error e => .error e, res.2)

/-- `Response.one()`: sets `self._raise_on_empty = True`, pulls one record
and peeks for a second. -/
def Response.one (r : Response) : Except PErr JVal × Response :=
  let r2 : Response := { r with _raise_on_empty := true }
  (oneOf r2.all, r2)

/-- `Response.one_or_none()`: `one()` with `NoResults` turned into `None`. -/
def Response.one_or_none (r : Response) : Except PErr (Option JVal) × Response :=
  let res := r.one
  (match res.1 with
   | .ok v => .ok (some v)
   | .error .noResults => .ok none
   | .error e => .error e, res.2)

/-- Python truthiness of a JSON-shaped value (`if not token`). -/
def pyFalsy : JVal → Bool
  | .null => true
  | .bool b => !b
  | .num n => n == 0
  | .str s => s.isEmpty
  | .arr items => items.isEmpty
  | .obj fields => fields.isEmpty

def expected_keys : List Key :=
  ["token_type".data, "refresh_token".data, "access_token".data,
   "scope".data, "expires_in".data, "expires_at".data]

def JVal.isDict : JVal → Bool
  | .obj _ => true
  | _ => false

def JVal.keys : JVal → List Key
  | .obj fields => fields.map Prod.fst
  | _ => []

/-- `expected_keys <= set(token)`: every expected key occurs in the dict. -/
def keysSubset (t : JVal) : Bool :=
  expected_keys.all (fun k => t.keys.contains k)

/-- The `OAuthClient` state relevant to `set_token`. -/
structure OAuthClient where
  token : Option JVal

def invalid_usage_msg : List Char :=
  "Token should contain a dictionary obtained using fetch_token()".data

/-- `OAuthClient.set_token`: returns the raised `InvalidUsage` message, if
any, together with the client state after the call (a raise leaves the
stored token untouched, since the assignment follows the check). -/
def OAuthClient.set_token (c : OAuthClient) (token : JVal) :
    Option (List Char) × OAuthClient :=
  if pyFalsy token then
    (none, { c with token := none })
  else if !(token.isDict && keysSubset token) then
    (some invalid_usage_msg, c)
  else
    (none, { c with token := some token })

/-! Basic helper lemmas. -/

theorem listIsPrefixOf_append_self (l t : List Char) : l.isPrefixOf (l ++ t) = true := by
  induction l with
  | nil => simp [List.isPrefixOf]
  | cons a as ih => simp [List.isPrefixOf, ih]

theorem listIsPrefixOf_self (l : List Char) : l.isPrefixOf l = true := by
  have h := listIsPrefixOf_append_self l []
  rw [List.append_nil] at h
  exact h

theorem append_dot_ne (a t tgt : List Char) (h : ('.' : Char) ∈ tgt → False) :
    a ++ '.' :: t ≠ tgt := by
  intro he
  exact h (he ▸ List.mem_append.mpr (Or.inr (List.mem_cons_self _ _)))

theorem append_dot_ne_self (a t : List Char) : a ++ '.' :: t ≠ a := by
  intro he
  have := congrArg List.length he
  simp [List.length_append] at this

theorem dotJoin_append (p q : List Key) (hp : p ≠ []) (hq : q ≠ []) :
    dotJoin (p ++ q) = dotJoin p ++ '.' :: dotJoin q := by
  induction p with
  | nil => exact absurd rfl hp
  | cons a p ih =>
    cases p with
    | nil =>
      cases q with
      | nil => exact absurd rfl hq
      | cons b q => simp [dotJoin]
    | cons c p2 =>
      have ih2 := ih (by simp)
      simp only [List.cons_append, dotJoin, List.append_eq] at ih2 ⊢
      rw [ih2]
      simp [dotJoin, List.append_assoc]

theorem jfieldEvents_append (a b : List (Key × JVal)) (path : List Key) :
    jfieldEvents (a ++ b) path = jfieldEvents a path ++ jfieldEvents b path := by
  induction a with
  | nil => simp [jfieldEvents]
  | cons kv rest ih =>
    obtain ⟨k, v⟩ := kv
    simp [jfieldEvents, ih, List.append_assoc]

theorem jitemEvents_append (a b : List JVal) (path : List Key) :
    jitemEvents (a ++ b) path = jitemEvents a path ++ jitemEvents b path := by
  induction a with
  | nil => simp [jitemEvents]
  | cons v rest ih => simp [jitemEvents, ih, List.append_assoc]

theorem runEvents_append (s : PState) (es1 es2 : List JEvent) :
    runEvents s (es1 ++ es2) =
      match runEvents s es1 with
      | .ok s2 => runEvents s2 es2
      | .error x => .error x := by
  induction es1 generalizing s with
  | nil => simp [runEvents]
  | cons e es ih =>
    simp only [List.cons_append, runEvents]
    cases pstep s e with
    | ok s2 => exact ih s2
    | error x => rfl

theorem runEvents_cons (s : PState) (e : JEvent) (es : List JEvent) :
    runEvents s (e :: es) =
      match pstep s e with
      | .ok s2 => runEvents s2 es
      | .error x => .error x := rfl

theorem feedMany_append (b : ObjectBuilder) (es1 es2 : List JEvent) :
    feedMany b (es1 ++ es2) = feedMany (feedMany b es1) es2 := by
  simp [feedMany, List.foldl_append]

theorem feedMany_cons (b : ObjectBuilder) (e : JEvent) (es : List JEvent) :
    feedMany b (e :: es) = feedMany (b.event e.event e.value) es := rfl

theorem mem_field_sizeOf (k : Key) (v : JVal) (f : List (Key × JVal))
    (h : (k, v) ∈ f) : sizeOf v < sizeOf (JVal.obj f) := by
  have h1 := List.sizeOf_lt_of_mem h
  simp only [JVal.obj.sizeOf_spec]
  simp [Prod.mk.sizeOf_spec] at h1
  omega

theorem mem_item_sizeOf (v : JVal) (l : List JVal)
    (h : v ∈ l) : sizeOf v < sizeOf (JVal.arr l) := by
  have h1 := List.sizeOf_lt_of_mem h
  simp only [JVal.arr.sizeOf_spec]
  omega

/-! Membership lemmas describing the shape of prefixes in event streams. -/

theorem mem_jfieldEvents_cases {e : JEvent} {f : List (Key × JVal)} {path : List Key}
    (h : e ∈ jfieldEvents f path) :
    (e.pfx = dotJoin path ∧ e.event = "map_key") ∨
      ∃ k v, (k, v) ∈ f ∧ e ∈ jevents v (path ++ [k]) := by
  induction f with
  | nil => simp [jfieldEvents] at h
  | cons kv rest ih =>
    obtain ⟨k, v⟩ := kv
    simp only [jfieldEvents, List.mem_cons, List.mem_append] at h
    rcases h with h | h | h
    · exact Or.inl (by simp [h])
    · exact Or.inr ⟨k, v, by simp, h⟩
    · rcases ih h with h1 | ⟨k2, v2, hm, he⟩
      · exact Or.inl h1
      · exact Or.inr ⟨k2, v2, by simp [hm], he⟩

theorem mem_jitemEvents_cases {e : JEvent} {l : List JVal} {path : List Key}
    (h : e ∈ jitemEvents l path) :
    ∃ v, v ∈ l ∧ e ∈ jevents v (path ++ ["item".data]) := by
  induction l with
  | nil => simp [jitemEvents] at h
  | cons v rest ih =>
    simp only [jitemEvents, List.mem_append] at h
    rcases h with h | h
    · exact ⟨v, by simp, h⟩
    · obtain ⟨v2, hm, he⟩ := ih h
      exact ⟨v2, by simp [hm], he⟩

theorem mem_jevents_pfx : (v : JVal) → (path : List Key) → (e : JEvent) →
    e ∈ jevents v path → ∃ ext : List Key, e.pfx = dotJoin (path ++ ext)
  | .null, path, e, he => ⟨[], by simp [jevents] at he; simp [he]⟩
  | .bool b, path, e, he => ⟨[], by simp [jevents] at he; simp [he]⟩
  | .num n, path, e, he => ⟨[], by simp [jevents] at he; simp [he]⟩
  | .str s, path, e, he => ⟨[], by simp [jevents] at he; simp [he]⟩
  | .arr items, path, e, he => by
    simp only [jevents, List.mem_cons, List.mem_append] at he
    rcases he with he | he | he
    · exact ⟨[], by simp [he]⟩
    · obtain ⟨v2, hm, he2⟩ := mem_jitemEvents_cases he
      obtain ⟨ext, hext⟩ := mem_jevents_pfx v2 (path ++ ["item".data]) e he2
      rw [List.append_assoc] at hext
      exact ⟨"item".data :: ext, hext⟩
    · simp at he
      exact ⟨[], by simp [he]⟩
  | .obj fields, path, e, he => by
    simp only [jevents, List.mem_cons, List.mem_append] at he
    rcases he with he | he | he
    · exact ⟨[], by simp [he]⟩
    · rcases mem_jfieldEvents_cases he with ⟨h1, _⟩ | ⟨k, v2, hm, he2⟩
      · exact ⟨[], by simp [h1]⟩
      · obtain ⟨ext, hext⟩ := mem_jevents_pfx v2 (path ++ [k]) e he2
        rw [List.append_assoc] at hext
        exact ⟨k :: ext, hext⟩
    · simp at he
      exact ⟨[], by simp [he]⟩
termination_by v _ _ _ => sizeOf v
decreasing_by
  · exact mem_item_sizeOf _ _ hm
  · exact mem_field_sizeOf _ _ _ hm

/-! Safety predicates: which events leave the root-shape matching
(lines 60-70 of `_parse_response`) untriggered, and which events are fed
verbatim to the builder in each of the three modes. -/

/-- The event matches neither `('error', 'start_map')` nor
`('result', 'start_map'/'start_array')`. -/
abbrev FirstChainSafe (e : JEvent) : Prop :=
  ¬(e.pfx = pfxError ∧ e.event = "start_map") ∧
  ¬(e.pfx = pfxResult ∧ (e.event = "start_map" ∨ e.event = "start_array"))

abbrev FeedSafeMany (e : JEvent) : Prop :=
  FirstChainSafe e ∧ ¬(e.pfx = pfxResultItem ∧ e.event = "end_map") ∧
    pfxResultItem.isPrefixOf e.pfx = true

abbrev FeedSafeSingle (e : JEvent) : Prop :=
  FirstChainSafe e ∧ ¬(e.pfx = pfxResult ∧ e.event = "end_map") ∧
    pfxResult.isPrefixOf e.pfx = true

abbrev FeedSafeError (e : JEvent) : Prop :=
  FirstChainSafe e ∧ ¬(e.pfx = pfxError ∧ e.event = "end_map") ∧
    pfxError.isPrefixOf e.pfx = true

theorem pstep_inert (s : PState) (e : JEvent) (hm : s.has_result_many = false)
    (hs : s.has_result_single = false) (he : s.has_error = false)
    (h : FirstChainSafe e) : pstep s e = .ok s := by
  simp only [pstep]
  rw [if_neg h.1, if_neg h.2]
  simp [hm, hs, he]

theorem pstep_many_feed (s : PState) (e : JEvent) (hm : s.has_result_many = true)
    (h : FeedSafeMany e) :
    pstep s e = .ok { s with builder := s.builder.event e.event e.value } := by
  simp only [pstep]
  rw [if_neg h.1.1, if_neg h.1.2]
  simp [hm, h.2.1, h.2.2]

theorem pstep_many_skip (s : PState) (e : JEvent) (hm : s.has_result_many = true)
    (h : FirstChainSafe e) (hterm : ¬(e.pfx = pfxResultItem ∧ e.event = "end_map"))
    (hpre : pfxResultItem.isPrefixOf e.pfx = false) :
    pstep s e = .ok s := by
  simp only [pstep]
  rw [if_neg h.1, if_neg h.2]
  simp [hm, hterm, hpre]

theorem pstep_many_yield (s : PState) (e : JEvent) (hm : s.has_result_many = true)
    (h : FirstChainSafe e) (hpfx : e.pfx = pfxResultItem) (hev : e.event = "end_map") :
    pstep s e = .ok { s with builder := s.builder.event e.event e.value,
                             count := s.count + 1,
                             yielded := s.yielded ++
                               [(s.builder.event e.event e.value).value.getD .null] } := by
  simp only [pstep]
  rw [if_neg h.1, if_neg h.2]
  simp [hm, hpfx, hev]

theorem pstep_single_feed (s : PState) (e : JEvent) (hm : s.has_result_many = false)
    (hs : s.has_result_single = true) (h : FeedSafeSingle e) :
    pstep s e = .ok { s with builder := s.builder.event e.event e.value } := by
  simp only [pstep]
  rw [if_neg h.1.1, if_neg h.1.2]
  simp [hm, hs, h.2.1, h.2.2]

theorem pstep_single_skip (s : PState) (e : JEvent) (hm : s.has_result_many = false)
    (hs : s.has_result_single = true) (h : FirstChainSafe e)
    (hterm : ¬(e.pfx = pfxResult ∧ e.event = "end_map"))
    (hpre : pfxResult.isPrefixOf e.pfx = false) :
    pstep s e = .ok s := by
  simp only [pstep]
  rw [if_neg h.1, if_neg h.2]
  simp [hm, hs, hterm, hpre]

theorem pstep_single_yield (s : PState) (e : JEvent) (hm : s.has_result_many = false)
    (hs : s.has_result_single = true) (h : FirstChainSafe e)
    (hpfx : e.pfx = pfxResult) (hev : e.event = "end_map") :
    pstep s e = .ok { s with builder := s.builder.event e.event e.value,
                             count := s.count + 1,
                             yielded := s.yielded ++
                               [(s.builder.event e.event e.value).value.getD .null] } := by
  simp only [pstep]
  rw [if_neg h.1, if_neg h.2]
  simp [hm, hs, hpfx, hev]

theorem pstep_error_feed (s : PState) (e : JEvent) (hm : s.has_result_many = false)
    (hs : s.has_result_single = false) (herr : s.has_error = true)
    (h : FeedSafeError e) :
    pstep s e = .ok { s with builder := s.builder.event e.event e.value } := by
  simp only [pstep]
  rw [if_neg h.1.1, if_neg h.1.2]
  simp [hm, hs, herr, h.2.1, h.2.2]

theorem pstep_error_raise (s : PState) (e : JEvent) (hm : s.has_result_many = false)
    (hs : s.has_result_single = false) (herr : s.has_error = true)
    (h : FirstChainSafe e) (hpfx : e.pfx = pfxError) (hev : e.event = "end_map") :
    pstep s e = .error (s, s.builder.value.getD .null) := by
  simp only [pstep]
  rw [if_neg h.1, if_neg h.2]
  simp [hm, hs, herr, hpfx, hev]

theorem runEvents_inert (es : List JEvent) (s : PState) (hm : s.has_result_many = false)
    (hs : s.has_result_single = false) (he : s.has_error = false)
    (h : ∀ e ∈ es, FirstChainSafe e) : runEvents s es = .ok s := by
  induction es with
  | nil => rfl
  | cons e rest ih =>
    rw [runEvents_cons, pstep_inert s e hm hs he (h e (by simp))]
    exact ih (fun e2 he2 => h e2 (by simp [he2]))

theorem runFeed_many (es : List JEvent) (s : PState) (hm : s.has_result_many = true)
    (h : ∀ e ∈ es, FeedSafeMany e) :
    runEvents s es = .ok { s with builder := feedMany s.builder es } := by
  induction es generalizing s with
  | nil => rfl
  | cons e rest ih =>
    rw [runEvents_cons, pstep_many_feed s e hm (h e (by simp)), feedMany_cons]
    exact ih { s with builder := s.builder.event e.event e.value } hm
      (fun e2 he2 => h e2 (by simp [he2]))

theorem runFeed_single (es : List JEvent) (s : PState) (hm : s.has_result_many = false)
    (hs : s.has_result_single = true) (h : ∀ e ∈ es, FeedSafeSingle e) :
    runEvents s es = .ok { s with builder := feedMany s.builder es } := by
  induction es generalizing s with
  | nil => rfl
  | cons e rest ih =>
    rw [runEvents_cons, pstep_single_feed s e hm hs (h e (by simp)), feedMany_cons]
    exact ih { s with builder := s.builder.event e.event e.value } hm hs
      (fun e2 he2 => h e2 (by simp [he2]))

theorem runFeed_error (es : List JEvent) (s : PState) (hm : s.has_result_many = false)
    (hs : s.has_result_single = false) (herr : s.has_error = true)
    (h : ∀ e ∈ es, FeedSafeError e) :
    runEvents s es = .ok { s with builder := feedMany s.builder es } := by
  induction es generalizing s with
  | nil => rfl
  | cons e rest ih =>
    rw [runEvents_cons, pstep_error_feed s e hm hs herr (h e (by simp)), feedMany_cons]
    exact ih { s with builder := s.builder.event e.event e.value } hm hs herr
      (fun e2 he2 => h e2 (by simp [he2]))

/-! Builder correctness: feeding the event stream of a value delivers
exactly that value. -/

theorem event_start_map (b : ObjectBuilder) :
    b.event "start_map" none = ⟨.obj [] none :: b.stack, b.val⟩ := by
  simp [ObjectBuilder.event]

theorem event_start_array (b : ObjectBuilder) :
    b.event "start_array" none = ⟨.arr [] :: b.stack, b.val⟩ := by
  simp [ObjectBuilder.event]

theorem event_map_key (acc : List (Key × JVal)) (key0 : Option Key) (rest : List BFrame)
    (val : Option JVal) (k : Key) :
    ObjectBuilder.event ⟨.obj acc key0 :: rest, val⟩ "map_key" (some (.str k)) =
      ⟨.obj acc (some k) :: rest, val⟩ := by
  simp [ObjectBuilder.event]

theorem feed_jfields (f : List (Key × JVal)) (path : List Key)
    (IH : ∀ k v, (k, v) ∈ f → ∀ b : ObjectBuilder,
      feedMany b (jevents v (path ++ [k])) = b.push v) :
    ∀ (acc : List (Key × JVal)) (rest : List BFrame) (val : Option JVal),
      feedMany ⟨.obj acc none :: rest, val⟩ (jfieldEvents f path) =
        ⟨.obj (f.reverse ++ acc) none :: rest, val⟩ := by
  induction f with
  | nil =>
    intro acc rest val
    simp [jfieldEvents, feedMany]
  | cons kv fs ih =>
    obtain ⟨k, v⟩ := kv
    intro acc rest val
    rw [show jfieldEvents ((k, v) :: fs) path =
          ⟨dotJoin path, "map_key", some (.str k)⟩ ::
            (jevents v (path ++ [k]) ++ jfieldEvents fs path) from by simp [jfieldEvents]]
    rw [feedMany_cons]
    show feedMany (ObjectBuilder.event ⟨.obj acc none :: rest, val⟩ "map_key" (some (.str k)))
      (jevents v (path ++ [k]) ++ jfieldEvents fs path) = _
    rw [event_map_key, feedMany_append, IH k v (by simp)]
    rw [show ObjectBuilder.push ⟨.obj acc (some k) :: rest, val⟩ v =
          ⟨.obj ((k, v) :: acc) none :: rest, val⟩ from by simp [ObjectBuilder.push]]
    rw [ih (fun k2 v2 hm b2 => IH k2 v2 (by simp [hm]) b2) ((k, v) :: acc) rest val]
    simp [List.append_assoc]

theorem feed_jitems (l : List JVal) (path : List Key)
    (IH : ∀ v, v ∈ l → ∀ b : ObjectBuilder,
      feedMany b (jevents v (path ++ ["item".data])) = b.push v) :
    ∀ (acc : List JVal) (rest : List BFrame) (val : Option JVal),
      feedMany ⟨.arr acc :: rest, val⟩ (jitemEvents l path) =
        ⟨.arr (l.reverse ++ acc) :: rest, val⟩ := by
  induction l with
  | nil =>
    intro acc rest val
    simp [jitemEvents, feedMany]
  | cons v vs ih =>
    intro acc rest val
    rw [show jitemEvents (v :: vs) path =
          jevents v (path ++ ["item".data]) ++ jitemEvents vs path from by simp [jitemEvents]]
    rw [feedMany_append, IH v (by simp)]
    rw [show ObjectBuilder.push ⟨.arr acc :: rest, val⟩ v =
          ⟨.arr (v :: acc) :: rest, val⟩ from by simp [ObjectBuilder.push]]
    rw [ih (fun v2 hm b2 => IH v2 (by simp [hm]) b2) (v :: acc) rest val]
    simp [List.append_assoc]

theorem feed_jevents : (v : JVal) → (path : List Key) → (b : ObjectBuilder) →
    feedMany b (jevents v path) = b.push v
  | .null, path, b => by
    simp [jevents, feedMany, ObjectBuilder.event]
  | .bool b2, path, b => by
    simp [jevents, feedMany, ObjectBuilder.event]
  | .num n, path, b => by
    simp [jevents, feedMany, ObjectBuilder.event]
  | .str s, path, b => by
    simp [jevents, feedMany, ObjectBuilder.event]
  | .obj fields, path, b => by
    rw [show jevents (.obj fields) path =
          ⟨dotJoin path, "start_map", none⟩ ::
            (jfieldEvents fields path ++ [⟨dotJoin path, "end_map", none⟩]) from by
      simp [jevents]]
    rw [feedMany_cons]
    show feedMany (b.event "start_map" none) _ = _
    rw [event_start_map, feedMany_append]
    rw [feed_jfields fields path
      (fun k v hm b2 => feed_jevents v (path ++ [k]) b2) [] b.stack b.val]
    show ObjectBuilder.event ⟨.obj (fields.reverse ++ []) none :: b.stack, b.val⟩
      "end_map" none = _
    rw [show ObjectBuilder.event ⟨.obj (fields.reverse ++ []) none :: b.stack, b.val⟩
          "end_map" none =
        ObjectBuilder.push ⟨b.stack, b.val⟩ (.obj (fields.reverse ++ []).reverse) from by
      simp [ObjectBuilder.event]]
    simp
  | .arr items, path, b => by
    rw [show jevents (.arr items) path =
          ⟨dotJoin path, "start_array", none⟩ ::
            (jitemEvents items path ++ [⟨dotJoin path, "end_array", none⟩]) from by
      simp [jevents]]
    rw [feedMany_cons]
    show feedMany (b.event "start_array" none) _ = _
    rw [event_start_array, feedMany_append]
    rw [feed_jitems items path
      (fun v hm b2 => feed_jevents v (path ++ ["item".data]) b2) [] b.stack b.val]
    show ObjectBuilder.event ⟨.arr (items.reverse ++ []) :: b.stack, b.val⟩
      "end_array" none = _
    rw [show ObjectBuilder.event ⟨.arr (items.reverse ++ []) :: b.stack, b.val⟩
          "end_array" none =
        ObjectBuilder.push ⟨b.stack, b.val⟩ (.arr (items.reverse ++ []).reverse) from by
      simp [ObjectBuilder.event]]
    simp
termination_by v _ _ => sizeOf v
decreasing_by
  · exact mem_field_sizeOf _ _ _ hm
  · exact mem_item_sizeOf _ _ hm

theorem push_stack_nil_value (b : ObjectBuilder) (h : b.stack = []) (v : JVal) :
    (b.push v).value = some v := by
  obtain ⟨stk, val⟩ := b
  subst h
  simp [ObjectBuilder.push, ObjectBuilder.value]

theorem push_stack_nil (b : ObjectBuilder) (h : b.stack = []) (v : JVal) :
    b.push v = ⟨[], some v⟩ := by
  obtain ⟨stk, val⟩ := b
  subst h
  simp [ObjectBuilder.push]

theorem value_obj_frame (acc : List (Key × JVal)) (k0 : Option Key) (val : Option JVal) :
    ObjectBuilder.value ⟨[.obj acc k0], val⟩ = some (.obj acc.reverse) := by
  simp [ObjectBuilder.value, attachUp, BFrame.close]

/-! Shape of prefixes inside a guarded subtree, and the resulting
mode-safety of its events. -/

theorem fields_pfx_shape (f : List (Key × JVal)) (path : List Key) (hp : path ≠ []) :
    ∀ e ∈ jfieldEvents f path,
      (e.pfx = dotJoin path ∧ e.event = "map_key") ∨
        ∃ t, e.pfx = dotJoin path ++ '.' :: t := by
  intro e he
  rcases mem_jfieldEvents_cases he with ⟨h1, h2⟩ | ⟨k, v, _, he2⟩
  · exact Or.inl ⟨h1, h2⟩
  · obtain ⟨ext, hext⟩ := mem_jevents_pfx v (path ++ [k]) e he2
    rw [List.append_assoc] at hext
    rw [dotJoin_append path ([k] ++ ext) hp (by simp)] at hext
    exact Or.inr ⟨dotJoin ([k] ++ ext), hext⟩

theorem fields_safe_many (f : List (Key × JVal)) :
    ∀ e ∈ jfieldEvents f ["result".data, "item".data], FeedSafeMany e := by
  intro e he
  have hjoin : dotJoin ["result".data, "item".data] = pfxResultItem := by decide
  rcases fields_pfx_shape f _ (by simp) e he with ⟨h1, h2⟩ | ⟨t, ht⟩
  · rw [hjoin] at h1
    refine ⟨⟨?_, ?_⟩, ?_, ?_⟩
    · rintro ⟨_, hev⟩
      rw [h2] at hev
      simp at hev
    · rintro ⟨_, hev⟩
      rcases hev with hev | hev <;> (rw [h2] at hev; simp at hev)
    · rintro ⟨_, hev⟩
      rw [h2] at hev
      simp at hev
    · rw [h1]
      exact listIsPrefixOf_self _
  · rw [hjoin] at ht
    refine ⟨⟨?_, ?_⟩, ?_, ?_⟩
    · rintro ⟨hp2, _⟩
      rw [ht] at hp2
      exact append_dot_ne _ _ _ (by decide) hp2
    · rintro ⟨hp2, _⟩
      rw [ht] at hp2
      exact append_dot_ne _ _ _ (by decide) hp2
    · rintro ⟨hp2, _⟩
      rw [ht] at hp2
      exact append_dot_ne_self _ _ hp2
    · rw [ht]
      exact listIsPrefixOf_append_self _ _

theorem fields_safe_single (f : List (Key × JVal)) :
    ∀ e ∈ jfieldEvents f ["result".data], FeedSafeSingle e := by
  intro e he
  have hjoin : dotJoin ["result".data] = pfxResult := by decide
  rcases fields_pfx_shape f _ (by simp) e he with ⟨h1, h2⟩ | ⟨t, ht⟩
  · rw [hjoin] at h1
    refine ⟨⟨?_, ?_⟩, ?_, ?_⟩
    · rintro ⟨_, hev⟩
      rw [h2] at hev
      simp at hev
    · rintro ⟨_, hev⟩
      rcases hev with hev | hev <;> (rw [h2] at hev; simp at hev)
    · rintro ⟨_, hev⟩
      rw [h2] at hev
      simp at hev
    · rw [h1]
      exact listIsPrefixOf_self _
  · rw [hjoin] at ht
    refine ⟨⟨?_, ?_⟩, ?_, ?_⟩
    · rintro ⟨hp2, _⟩
      rw [ht] at hp2
      exact append_dot_ne _ _ _ (by decide) hp2
    · rintro ⟨hp2, _⟩
      rw [ht] at hp2
      exact append_dot_ne _ _ _ (by decide) hp2
    · rintro ⟨hp2, _⟩
      rw [ht] at hp2
      exact append_dot_ne_self _ _ hp2
    · rw [ht]
      exact listIsPrefixOf_append_self _ _

theorem fields_safe_error (f : List (Key × JVal)) :
    ∀ e ∈ jfieldEvents f ["error".data], FeedSafeError e := by
  intro e he
  have hjoin : dotJoin ["error".data] = pfxError := by decide
  rcases fields_pfx_shape f _ (by simp) e he with ⟨h1, h2⟩ | ⟨t, ht⟩
  · rw [hjoin] at h1
    refine ⟨⟨?_, ?_⟩, ?_, ?_⟩
    · rintro ⟨_, hev⟩
      rw [h2] at hev
      simp at hev
    · rintro ⟨_, hev⟩
      rcases hev with hev | hev <;> (rw [h2] at hev; simp at hev)
    · rintro ⟨_, hev⟩
      rw [h2] at hev
      simp at hev
    · rw [h1]
      exact listIsPrefixOf_self _
  · rw [hjoin] at ht
    refine ⟨⟨?_, ?_⟩, ?_, ?_⟩
    · rintro ⟨hp2, _⟩
      rw [ht] at hp2
      exact append_dot_ne_self _ _ hp2
    · rintro ⟨hp2, _⟩
      rw [ht] at hp2
      exact append_dot_ne _ _ _ (by decide) hp2
    · rintro ⟨hp2, _⟩
      rw [ht] at hp2
      exact append_dot_ne_self _ _ hp2
    · rw [ht]
      exact listIsPrefixOf_append_self _ _

/-! Running the classifier over the events of result subtrees. -/

theorem runEvents_cons_ok (s s2 : PState) (e : JEvent) (es : List JEvent)
    (h : pstep s e = .ok s2) : runEvents s (e :: es) = runEvents s2 es := by
  simp [runEvents_cons, h]

theorem runEvents_cons_error (s : PState) (x : PState × JVal) (e : JEvent)
    (es : List JEvent) (h : pstep s e = .error x) :
    runEvents s (e :: es) = .error x := by
  simp [runEvents_cons, h]

theorem runEvents_append_ok (s s2 : PState) (es1 es2 : List JEvent)
    (h : runEvents s es1 = .ok s2) :
    runEvents s (es1 ++ es2) = runEvents s2 es2 := by
  rw [runEvents_append, h]

theorem runEvents_append_error (s : PState) (x : PState × JVal) (es1 es2 : List JEvent)
    (h : runEvents s es1 = .error x) :
    runEvents s (es1 ++ es2) = .error x := by
  rw [runEvents_append, h]

theorem pstep_many_feed2 (s : PState) (p : List Char) (ev : String) (val : Option JVal)
    (hm : s.has_result_many = true) (h : FeedSafeMany ⟨p, ev, val⟩) :
    pstep s ⟨p, ev, val⟩ = .ok { s with builder := s.builder.event ev val } :=
  pstep_many_feed s ⟨p, ev, val⟩ hm h

theorem pstep_many_yield2 (s : PState) (p : List Char) (val : Option JVal)
    (hm : s.has_result_many = true) (h : FirstChainSafe ⟨p, "end_map", val⟩)
    (hpfx : p = pfxResultItem) :
    pstep s ⟨p, "end_map", val⟩ =
      .ok { s with builder := s.builder.event "end_map" val,
                   count := s.count + 1,
                   yielded := s.yielded ++
                     [(s.builder.event "end_map" val).value.getD .null] } :=
  pstep_many_yield s ⟨p, "end_map", val⟩ hm h hpfx rfl

theorem pstep_single_feed2 (s : PState) (p : List Char) (ev : String) (val : Option JVal)
    (hm : s.has_result_many = false) (hs : s.has_result_single = true)
    (h : FeedSafeSingle ⟨p, ev, val⟩) :
    pstep s ⟨p, ev, val⟩ = .ok { s with builder := s.builder.event ev val } :=
  pstep_single_feed s ⟨p, ev, val⟩ hm hs h

theorem pstep_single_yield2 (s : PState) (p : List Char) (val : Option JVal)
    (hm : s.has_result_many = false) (hs : s.has_result_single = true)
    (h : FirstChainSafe ⟨p, "end_map", val⟩) (hpfx : p = pfxResult) :
    pstep s ⟨p, "end_map", val⟩ =
      .ok { s with builder := s.builder.event "end_map" val,
                   count := s.count + 1,
                   yielded := s.yielded ++
                     [(s.builder.event "end_map" val).value.getD .null] } :=
  pstep_single_yield s ⟨p, "end_map", val⟩ hm hs h hpfx rfl

theorem pstep_error_feed2 (s : PState) (p : List Char) (ev : String) (val : Option JVal)
    (hm : s.has_result_many = false) (hs : s.has_result_single = false)
    (herr : s.has_error = true) (h : FeedSafeError ⟨p, ev, val⟩) :
    pstep s ⟨p, ev, val⟩ = .ok { s with builder := s.builder.event ev val } :=
  pstep_error_feed s ⟨p, ev, val⟩ hm hs herr h

theorem run_obj_item (f : List (Key × JVal)) (s : PState)
    (hm : s.has_result_many = true) (hstk : s.builder.stack = []) :
    runEvents s (jevents (.obj f) ["result".data, "item".data]) =
      .ok { s with builder := ⟨[], some (.obj f)⟩, count := s.count + 1,
                   yielded := s.yielded ++ [.obj f] } := by
  have hdecomp : jevents (.obj f) ["result".data, "item".data] =
      ⟨pfxResultItem, "start_map", none⟩ ::
        (jfieldEvents f ["result".data, "item".data] ++
          [⟨pfxResultItem, "end_map", none⟩]) := by
    simp only [jevents]
    rfl
  have hb1 : ObjectBuilder.event s.builder "start_map" none =
      ⟨[.obj [] none], s.builder.val⟩ := by
    rw [event_start_map, hstk]
  have hb2 : feedMany ⟨[.obj [] none], s.builder.val⟩
      (jfieldEvents f ["result".data, "item".data]) =
      ⟨[.obj (f.reverse ++ []) none], s.builder.val⟩ :=
    feed_jfields f _ (fun k v _ b2 => feed_jevents v _ b2) [] [] s.builder.val
  have hb3 : ObjectBuilder.event ⟨[.obj (f.reverse ++ []) none], s.builder.val⟩
      "end_map" none = ⟨[], some (.obj f)⟩ := by
    simp [ObjectBuilder.event, ObjectBuilder.push]
  have h1 := pstep_many_feed2 s pfxResultItem "start_map" none hm (by decide)
  rw [hb1] at h1
  have h2 := runFeed_many (jfieldEvents f ["result".data, "item".data])
    ({ s with builder := ⟨[.obj [] none], s.builder.val⟩ }) hm (fields_safe_many f)
  dsimp only at h2
  rw [hb2] at h2
  have h3 := pstep_many_yield2
    ({ s with builder := ⟨[.obj (f.reverse ++ []) none], s.builder.val⟩ })
    pfxResultItem none hm (by decide) rfl
  dsimp only at h3
  rw [hb3] at h3
  rw [hdecomp, runEvents_cons_ok _ _ _ _ h1, runEvents_append_ok _ _ _ _ h2,
    runEvents_cons_ok _ _ _ _ h3]
  simp [runEvents, ObjectBuilder.value]

theorem run_items (fs : List (List (Key × JVal))) :
    ∀ s : PState, s.has_result_many = true → s.builder.stack = [] →
      ∃ b : ObjectBuilder, b.stack = [] ∧
        runEvents s (jitemEvents (fs.map JVal.obj) ["result".data]) =
          .ok { s with builder := b, count := s.count + fs.length,
                       yielded := s.yielded ++ fs.map JVal.obj } := by
  induction fs with
  | nil =>
    intro s hm hstk
    refine ⟨s.builder, hstk, ?_⟩
    simp [jitemEvents, runEvents]
  | cons f rest ih =>
    intro s hm hstk
    have hdecomp : jitemEvents ((f :: rest).map JVal.obj) ["result".data] =
        jevents (.obj f) ["result".data, "item".data] ++
          jitemEvents (rest.map JVal.obj) ["result".data] := by
      simp only [List.map_cons, jitemEvents]
      rfl
    rw [hdecomp, runEvents_append_ok _ _ _ _ (run_obj_item f s hm hstk)]
    obtain ⟨b, hbstk, hrun⟩ :=
      ih ({ s with builder := ⟨[], some (JVal.obj f)⟩, count := s.count + 1,
                   yielded := s.yielded ++ [JVal.obj f] }) hm rfl
    refine ⟨b, hbstk, ?_⟩
    rw [hrun]
    dsimp only
    rw [List.append_assoc]
    simp [Nat.add_comm, Nat.add_assoc, Nat.add_left_comm]

theorem run_result_array_doc (fs : List (List (Key × JVal))) :
    ∃ b : ObjectBuilder,
      runEvents initState (jevents (.obj [("result".data, .arr (fs.map JVal.obj))]) []) =
        .ok ⟨false, true, false, b, fs.length, fs.map JVal.obj⟩ := by
  have hdecomp : jevents (.obj [("result".data, .arr (fs.map JVal.obj))]) [] =
      ⟨[], "start_map", none⟩ :: ⟨[], "map_key", some (.str "result".data)⟩ ::
        ⟨"result".data, "start_array", none⟩ ::
          (jitemEvents (fs.map JVal.obj) ["result".data] ++
            [⟨"result".data, "end_array", none⟩, ⟨[], "end_map", none⟩]) := by
    simp [jevents, jfieldEvents, dotJoin]
  obtain ⟨b, hbstk, hrun⟩ := run_items fs ⟨false, true, false, ⟨[], none⟩, 0, []⟩ rfl rfl
  dsimp only at hrun
  rw [List.nil_append, Nat.zero_add] at hrun
  refine ⟨b, ?_⟩
  rw [hdecomp,
    runEvents_cons_ok _ _ _ _ (pstep_inert initState _ rfl rfl rfl (by decide)),
    runEvents_cons_ok _ _ _ _ (pstep_inert initState _ rfl rfl rfl (by decide)),
    runEvents_cons_ok _ _ _ _
      (show pstep initState ⟨"result".data, "start_array", none⟩ =
        .ok ⟨false, true, false, ⟨[], none⟩, 0, []⟩ from rfl),
    runEvents_append_ok _ _ _ _ hrun,
    runEvents_cons_ok _ _ _ _
      (pstep_many_skip ⟨false, true, false, b, fs.length, fs.map JVal.obj⟩
        ⟨"result".data, "end_array", none⟩ rfl (by decide) (by decide) (by decide)),
    runEvents_cons_ok _ _ _ _
      (pstep_many_skip ⟨false, true, false, b, fs.length, fs.map JVal.obj⟩
        ⟨[], "end_map", none⟩ rfl (by decide) (by decide) (by decide))]
  rfl

theorem run_result_single_doc (f : List (Key × JVal)) :
    runEvents initState (jevents (.obj [("result".data, .obj f)]) []) =
      .ok ⟨true, false, false, ⟨[], some (.obj f)⟩, 1, [.obj f]⟩ := by
  have hdecomp : jevents (.obj [("result".data, .obj f)]) [] =
      ⟨[], "start_map", none⟩ :: ⟨[], "map_key", some (.str "result".data)⟩ ::
        ⟨"result".data, "start_map", none⟩ ::
          (jfieldEvents f ["result".data] ++
            [⟨"result".data, "end_map", none⟩, ⟨[], "end_map", none⟩]) := by
    simp [jevents, jfieldEvents, dotJoin]
  have hb2 : feedMany ⟨[.obj [] none], none⟩ (jfieldEvents f ["result".data]) =
      ⟨[.obj (f.reverse ++ []) none], none⟩ :=
    feed_jfields f _ (fun k v _ b2 => feed_jevents v _ b2) [] [] none
  have h2 := runFeed_single (jfieldEvents f ["result".data])
    ⟨true, false, false, ⟨[.obj [] none], none⟩, 0, []⟩ rfl rfl (fields_safe_single f)
  dsimp only at h2
  rw [hb2] at h2
  have h3 := pstep_single_yield2 ⟨true, false, false, ⟨[.obj (f.reverse ++ []) none], none⟩, 0, []⟩
    "result".data none rfl rfl (by decide) (by decide)
  dsimp only at h3
  rw [show ObjectBuilder.event ⟨[.obj (f.reverse ++ []) none], none⟩ "end_map" none =
      ⟨[], some (.obj f)⟩ from by simp [ObjectBuilder.event, ObjectBuilder.push]] at h3
  rw [hdecomp,
    runEvents_cons_ok _ _ _ _ (pstep_inert initState _ rfl rfl rfl (by decide)),
    runEvents_cons_ok _ _ _ _ (pstep_inert initState _ rfl rfl rfl (by decide)),
    runEvents_cons_ok _ _ _ _
      (show pstep initState ⟨"result".data, "start_map", none⟩ =
        .ok ⟨true, false, false, ⟨[.obj [] none], none⟩, 0, []⟩ from rfl),
    runEvents_append_ok _ _ _ _ h2,
    runEvents_cons_ok _ _ _ _ h3]
  simp only [Nat.zero_add, List.nil_append, ObjectBuilder.value, Option.getD_some]
  rw [runEvents_cons_ok _ _ _ _
    (pstep_single_skip ⟨true, false, false, ⟨[], some (.obj f)⟩, 1, [.obj f]⟩
      ⟨[], "end_map", none⟩ rfl rfl (by decide) (by decide) (by decide))]
  rfl

def JVal.isList : JVal → Bool
  | .arr _ => true
  | _ => false

/-- Events of a subtree rooted at a non-empty path never trigger the
root-shape matching, provided the subtree is not an `error` object nor a
`result` object/array. -/
theorem safe_jevents : (v : JVal) → (path : List Key) → path ≠ [] →
    (dotJoin path = pfxError → v.isDict = false) →
    (dotJoin path = pfxResult → v.isDict = false ∧ v.isList = false) →
    ∀ e ∈ jevents v path, FirstChainSafe e
  | .null, path, _, _, _ => by
    intro e hee
    simp [jevents] at hee
    subst hee
    refine ⟨?_, ?_⟩
    · rintro ⟨_, h2⟩
      simp at h2
    · rintro ⟨_, h2⟩
      rcases h2 with h2 | h2 <;> simp at h2
  | .bool b, path, _, _, _ => by
    intro e hee
    simp [jevents] at hee
    subst hee
    refine ⟨?_, ?_⟩
    · rintro ⟨_, h2⟩
      simp at h2
    · rintro ⟨_, h2⟩
      rcases h2 with h2 | h2 <;> simp at h2
  | .num n, path, _, _, _ => by
    intro e hee
    simp [jevents] at hee
    subst hee
    refine ⟨?_, ?_⟩
    · rintro ⟨_, h2⟩
      simp at h2
    · rintro ⟨_, h2⟩
      rcases h2 with h2 | h2 <;> simp at h2
  | .str s2, path, _, _, _ => by
    intro e hee
    simp [jevents] at hee
    subst hee
    refine ⟨?_, ?_⟩
    · rintro ⟨_, h2⟩
      simp at h2
    · rintro ⟨_, h2⟩
      rcases h2 with h2 | h2 <;> simp at h2
  | .arr items, path, hp, _, hr => by
    intro e hee
    simp only [jevents, List.mem_cons, List.mem_append] at hee
    have hne : dotJoin (path ++ ["item".data]) ≠ pfxError := by
      rw [dotJoin_append path ["item".data] hp (by simp)]
      exact append_dot_ne _ _ _ (by decide)
    have hnr : dotJoin (path ++ ["item".data]) ≠ pfxResult := by
      rw [dotJoin_append path ["item".data] hp (by simp)]
      exact append_dot_ne _ _ _ (by decide)
    rcases hee with hee | hee | hee
    · subst hee
      refine ⟨?_, ?_⟩
      · rintro ⟨_, h2⟩
        simp at h2
      · rintro ⟨h1, _⟩
        have := hr h1
        simp [JVal.isList] at this
    · obtain ⟨v2, hm, he2⟩ := mem_jitemEvents_cases hee
      exact safe_jevents v2 (path ++ ["item".data]) (by simp)
        (fun h => absurd h hne) (fun h => absurd h hnr) e he2
    · simp at hee
      subst hee
      refine ⟨?_, ?_⟩
      · rintro ⟨_, h2⟩
        simp at h2
      · rintro ⟨_, h2⟩
        rcases h2 with h2 | h2 <;> simp at h2
  | .obj fields, path, hp, he, hr => by
    intro e hee
    simp only [jevents, List.mem_cons, List.mem_append] at hee
    rcases hee with hee | hee | hee
    · subst hee
      refine ⟨?_, ?_⟩
      · rintro ⟨h1, _⟩
        have := he h1
        simp [JVal.isDict] at this
      · rintro ⟨h1, _⟩
        have := (hr h1).1
        simp [JVal.isDict] at this
    · rcases mem_jfieldEvents_cases hee with ⟨_, h2⟩ | ⟨k, v2, hm, he2⟩
      · refine ⟨?_, ?_⟩
        · rintro ⟨_, h3⟩
          rw [h2] at h3
          simp at h3
        · rintro ⟨_, h3⟩
          rcases h3 with h3 | h3 <;> (rw [h2] at h3; simp at h3)
      · have hne : dotJoin (path ++ [k]) ≠ pfxError := by
          rw [dotJoin_append path [k] hp (by simp)]
          exact append_dot_ne _ _ _ (by decide)
        have hnr : dotJoin (path ++ [k]) ≠ pfxResult := by
          rw [dotJoin_append path [k] hp (by simp)]
          exact append_dot_ne _ _ _ (by decide)
        exact safe_jevents v2 (path ++ [k]) (by simp)
          (fun h => absurd h hne) (fun h => absurd h hnr) e he2
    · simp at hee
      subst hee
      refine ⟨?_, ?_⟩
      · rintro ⟨_, h2⟩
        simp at h2
      · rintro ⟨_, h2⟩
        rcases h2 with h2 | h2 <;> simp at h2
termination_by v _ _ _ _ => sizeOf v
decreasing_by
  · exact mem_item_sizeOf _ _ hm
  · exact mem_field_sizeOf _ _ _ hm

/-- A root field that matches neither the `result` shapes nor the
`error` object shape. -/
abbrev RootFieldSafe (kv : Key × JVal) : Prop :=
  ¬(kv.1 = pfxResult ∧ (kv.2.isDict = true ∨ kv.2.isList = true)) ∧
    ¬(kv.1 = pfxError ∧ kv.2.isDict = true)

/-- Events of root fields that all satisfy `RootFieldSafe` never trigger
the root-shape matching. -/
theorem root_fields_safe (fields : List (Key × JVal))
    (h : ∀ kv ∈ fields, RootFieldSafe kv) :
    ∀ e ∈ jfieldEvents fields [], FirstChainSafe e := by
  intro e hee
  rcases mem_jfieldEvents_cases hee with ⟨_, h2⟩ | ⟨k, v, hm, he2⟩
  · refine ⟨?_, ?_⟩
    · rintro ⟨_, h3⟩
      rw [h2] at h3
      simp at h3
    · rintro ⟨_, h3⟩
      rcases h3 with h3 | h3 <;> (rw [h2] at h3; simp at h3)
  · have hsafe := h (k, v) hm
    refine safe_jevents v ([] ++ [k]) (by simp) ?_ ?_ e he2
    · intro hj
      rw [show dotJoin ([] ++ [k]) = k from rfl] at hj
      by_contra hd
      exact hsafe.2 ⟨hj, by simpa using hd⟩
    · intro hj
      rw [show dotJoin ([] ++ [k]) = k from rfl] at hj
      constructor
      · by_contra hd
        exact hsafe.1 ⟨hj, Or.inl (by simpa using hd)⟩
      · by_contra hd
        exact hsafe.1 ⟨hj, Or.inr (by simpa using hd)⟩

/-- Running the classifier over a document whose root carries only
unmatched fields before an `error` object: the pass raises
`ResponseError` with the assembled error object the moment the error
subtree closes, whatever follows. -/
theorem run_error_doc (pre ef rest : List (Key × JVal))
    (hpre : ∀ kv ∈ pre, RootFieldSafe kv) :
    runEvents initState (jevents (.obj (pre ++ ("error".data, .obj ef) :: rest)) []) =
      .error (⟨false, false, true, ⟨[.obj (ef.reverse ++ []) none], none⟩, 0, []⟩,
        .obj ef) := by
  have hdecomp1 : jevents (.obj (pre ++ ("error".data, .obj ef) :: rest)) [] =
      ⟨[], "start_map", none⟩ ::
        (jfieldEvents (pre ++ ("error".data, .obj ef) :: rest) [] ++
          [⟨[], "end_map", none⟩]) := by
    simp only [jevents]
    rfl
  have hdecomp2 : jfieldEvents (("error".data, .obj ef) :: rest) [] =
      ⟨[], "map_key", some (.str "error".data)⟩ ::
        (jevents (.obj ef) ["error".data] ++ jfieldEvents rest []) := by
    simp only [jfieldEvents]
    rfl
  have hdecomp3 : jevents (.obj ef) ["error".data] =
      ⟨"error".data, "start_map", none⟩ ::
        (jfieldEvents ef ["error".data] ++ [⟨"error".data, "end_map", none⟩]) := by
    simp only [jevents]
    rfl
  have hb2 : feedMany ⟨[.obj [] none], none⟩ (jfieldEvents ef ["error".data]) =
      ⟨[.obj (ef.reverse ++ []) none], none⟩ :=
    feed_jfields ef _ (fun k v _ b2 => feed_jevents v _ b2) [] [] none
  have h2 := runFeed_error (jfieldEvents ef ["error".data])
    ⟨false, false, true, ⟨[.obj [] none], none⟩, 0, []⟩ rfl rfl rfl (fields_safe_error ef)
  dsimp only at h2
  rw [hb2] at h2
  have h3 := pstep_error_raise
    ⟨false, false, true, ⟨[.obj (ef.reverse ++ []) none], none⟩, 0, []⟩
    ⟨"error".data, "end_map", none⟩ rfl rfl rfl (by decide) rfl rfl
  dsimp only at h3
  rw [show (ObjectBuilder.value ⟨[.obj (ef.reverse ++ []) none], none⟩).getD JVal.null =
      .obj ef from by simp [ObjectBuilder.value, attachUp, BFrame.close]] at h3
  rw [hdecomp1, jfieldEvents_append, hdecomp2, hdecomp3]
  simp only [List.cons_append, List.append_assoc, List.singleton_append]
  rw [runEvents_cons_ok _ _ _ _ (pstep_inert initState _ rfl rfl rfl (by decide)),
    runEvents_append_ok _ _ _ _
      (runEvents_inert _ initState rfl rfl rfl (root_fields_safe pre hpre)),
    runEvents_cons_ok _ _ _ _ (pstep_inert initState _ rfl rfl rfl (by decide)),
    runEvents_cons_ok _ _ _ _
      (show pstep initState ⟨"error".data, "start_map", none⟩ =
        .ok ⟨false, false, true, ⟨[.obj [] none], none⟩, 0, []⟩ from rfl),
    runEvents_append_ok _ _ _ _ h2,
    runEvents_cons_error _ _ _ _ h3]

/-- A root object none of whose fields match `result` or `error` leaves
the classifier in its initial state. -/
theorem run_unmatched_obj (fields : List (Key × JVal))
    (h : ∀ kv ∈ fields, RootFieldSafe kv) :
    runEvents initState (jevents (.obj fields) []) = .ok initState := by
  refine runEvents_inert _ initState rfl rfl rfl ?_
  intro e he
  rw [show jevents (.obj fields) [] =
      ⟨[], "start_map", none⟩ ::
        (jfieldEvents fields [] ++ [⟨[], "end_map", none⟩]) from by
    simp only [jevents]
    rfl] at he
  simp only [List.mem_cons, List.mem_append] at he
  rcases he with he | he | he
  · subst he
    decide
  · exact root_fields_safe fields h e he
  · simp at he
    subst he
    decide

/-- Any non-object root document leaves the classifier in its initial
state (no `result` or `error` key can match at the root). -/
theorem run_unmatched_nonobj (v : JVal) (hno : v.isDict = false) :
    runEvents initState (jevents v []) = .ok initState := by
  refine runEvents_inert _ initState rfl rfl rfl ?_
  intro e he
  cases v with
  | null =>
    simp [jevents] at he
    subst he
    decide
  | bool b =>
    simp [jevents] at he
    subst he
    refine ⟨?_, ?_⟩
    · rintro ⟨_, h2⟩
      simp at h2
    · rintro ⟨_, h2⟩
      rcases h2 with h2 | h2 <;> simp at h2
  | num n =>
    simp [jevents] at he
    subst he
    refine ⟨?_, ?_⟩
    · rintro ⟨_, h2⟩
      simp at h2
    · rintro ⟨_, h2⟩
      rcases h2 with h2 | h2 <;> simp at h2
  | str s =>
    simp [jevents] at he
    subst he
    refine ⟨?_, ?_⟩
    · rintro ⟨_, h2⟩
      simp at h2
    · rintro ⟨_, h2⟩
      rcases h2 with h2 | h2 <;> simp at h2
  | obj fields => simp [JVal.isDict] at hno
  | arr items =>
    rw [show jevents (.arr items) [] =
        ⟨[], "start_array", none⟩ ::
          (jitemEvents items [] ++ [⟨[], "end_array", none⟩]) from by
      simp only [jevents]
      rfl] at he
    simp only [List.mem_cons, List.mem_append] at he
    rcases he with he | he | he
    · subst he
      decide
    · obtain ⟨v2, _, he2⟩ := mem_jitemEvents_cases he
      refine safe_jevents v2 ([] ++ ["item".data]) (by simp) ?_ ?_ e he2
      · intro hj
        rw [show dotJoin ([] ++ ["item".data]) = "item".data from rfl] at hj
        exact absurd hj (by decide)
      · intro hj
        rw [show dotJoin ([] ++ ["item".data]) = "item".data from rfl] at hj
        exact absurd hj (by decide)
    · simp at he
      subst he
      decide

/-! Parse-level lemmas: `_parse_response` outcomes per document shape. -/

theorem parse_result_array_pos (fs : List (List (Key × JVal))) (roe : Bool)
    (h : fs ≠ []) :
    parse_response roe (jevents (.obj [("result".data, .arr (fs.map JVal.obj))]) []) =
      ⟨fs.map JVal.obj, none, fs.length⟩ := by
  obtain ⟨b, hrun⟩ := run_result_array_doc fs
  have hlen : fs.length ≠ 0 := fun hh => h (List.length_eq_zero.mp hh)
  have hbeq : (fs.length == 0) = false := beq_eq_false_iff_ne.mpr hlen
  simp only [parse_response, hrun]
  simp [finishParse, hbeq]

theorem parse_result_array_nil (roe : Bool) :
    parse_response roe (jevents (.obj [("result".data, .arr [])]) []) =
      if roe then ⟨[], some .noResults, 0⟩ else ⟨[.obj []], none, 0⟩ := by
  obtain ⟨b, hrun⟩ := run_result_array_doc []
  simp only [List.map_nil, List.length_nil] at hrun
  simp only [parse_response, hrun]
  cases roe <;> simp [finishParse]

theorem parse_result_single (f : List (Key × JVal)) (roe : Bool) :
    parse_response roe (jevents (.obj [("result".data, .obj f)]) []) =
      ⟨[.obj f], none, 1⟩ := by
  simp only [parse_response, run_result_single_doc f]
  simp [finishParse]

theorem parse_error_doc (pre ef rest : List (Key × JVal)) (roe : Bool)
    (hpre : ∀ kv ∈ pre, RootFieldSafe kv) :
    parse_response roe (jevents (.obj (pre ++ ("error".data, .obj ef) :: rest)) []) =
      ⟨[], some (.responseError (.obj ef)), 0⟩ := by
  simp only [parse_response, run_error_doc pre ef rest hpre]

/-- Does the document root match a `result` key (object or array) or an
`error` object?  This is exactly the complement of the condition under
which `_parse_response` ends with `MissingResult`. -/
def rootMatches : JVal → Bool
  | .obj fields => fields.any (fun kv =>
      (kv.1 == "result".data && (kv.2.isDict || kv.2.isList)) ||
      (kv.1 == "error".data && kv.2.isDict))
  | _ => false

theorem parse_unmatched (v : JVal) (roe : Bool) (h : rootMatches v = false) :
    parse_response roe (jevents v []) = ⟨[], some .missingResult, 0⟩ := by
  have hrun : runEvents initState (jevents v []) = .ok initState := by
    cases v with
    | obj fields =>
      refine run_unmatched_obj fields ?_
      intro kv hm
      simp only [rootMatches, List.any_eq_false] at h
      have h2 := h kv hm
      simp only [Bool.not_eq_true, Bool.or_eq_false_iff, Bool.and_eq_false_iff,
        beq_eq_false_iff_ne] at h2
      constructor
      · rintro ⟨hk, hv⟩
        rcases h2.1 with h3 | ⟨h4, h5⟩
        · exact h3 hk
        · rcases hv with hv | hv
          · rw [h4] at hv
            cases hv
          · rw [h5] at hv
            cases hv
      · rintro ⟨hk, hv⟩
        rcases h2.2 with h3 | h4
        · exact h3 hk
        · rw [h4] at hv
          cases hv
    | null => exact run_unmatched_nonobj _ rfl
    | bool b => exact run_unmatched_nonobj _ rfl
    | num n => exact run_unmatched_nonobj _ rfl
    | str s => exact run_unmatched_nonobj _ rfl
    | arr items => exact run_unmatched_nonobj _ rfl
  simp only [parse_response, hrun]
  simp [finishParse, initState]

/-- A plain successful GET response hands the byte stream to
`_parse_response`. -/
theorem all_get200 (ev : List JEvent) (roe : Bool) :
    Response.all ⟨⟨200, "GET", ev⟩, roe⟩ = parse_response roe ev := by
  show get_validated_response ⟨200, "GET", ev⟩ roe = parse_response roe ev
  unfold get_validated_response
  rw [if_neg (by simp), if_neg (by dsimp only; omega)]

/-! The count invariant of a parse pass. -/

set_option maxHeartbeats 1000000 in
theorem pstep_count (s : PState) (e : JEvent) (h : s.count = s.yielded.length) :
    (match pstep s e with
     | .ok s2 => s2.count = s2.yielded.length
     | .error x => x.1.count = x.1.yielded.length) := by
  unfold pstep
  split_ifs <;>
    cases hm2 : s.has_result_many <;>
      cases hs2 : s.has_result_single <;>
        cases herr2 : s.has_error <;>
          simp [hm2, hs2, herr2, h, List.length_append]

theorem runEvents_count : ∀ (es : List JEvent) (s : PState),
    s.count = s.yielded.length →
    (match runEvents s es with
     | .ok s2 => s2.count = s2.yielded.length
     | .error x => x.1.count = x.1.yielded.length) := by
  intro es
  induction es with
  | nil =>
    intro s h
    simpa [runEvents] using h
  | cons e rest ih =>
    intro s h
    have hp := pstep_count s e h
    rw [runEvents_cons]
    cases hps : pstep s e with
    | ok s2 =>
      rw [hps] at hp
      exact ih s2 hp
    | error x =>
      rw [hps] at hp
      exact hp

/-! Remaining helpers for the claim theorems. -/

/-- A document carrying a `result` array followed by an `error` object. -/
def docC1 : JVal :=
  .obj [("result".data, .arr [.obj [("a".data, .num 1)]]),
        ("error".data, .obj [("message".data, .str "m".data),
                             ("detail".data, .str "d".data)])]

theorem run_docC1 :
    runEvents initState (jevents docC1 []) =
      .ok ⟨false, true, true, ⟨[], none⟩, 1, [.obj [("a".data, .num 1)]]⟩ := by
  have hdecomp : jevents docC1 [] =
      ⟨[], "start_map", none⟩ :: ⟨[], "map_key", some (.str "result".data)⟩ ::
        ⟨"result".data, "start_array", none⟩ ::
          (jevents (.obj [("a".data, .num 1)]) ["result".data, "item".data] ++
            [⟨"result".data, "end_array", none⟩,
             ⟨[], "map_key", some (.str "error".data)⟩,
             ⟨"error".data, "start_map", none⟩,
             ⟨"error".data, "map_key", some (.str "message".data)⟩,
             ⟨"error.message".data, "string", some (.str "m".data)⟩,
             ⟨"error".data, "map_key", some (.str "detail".data)⟩,
             ⟨"error.detail".data, "string", some (.str "d".data)⟩,
             ⟨"error".data, "end_map", none⟩,
             ⟨[], "end_map", none⟩]) := by
    simp [docC1, jevents, jfieldEvents, jitemEvents, dotJoin]
  rw [hdecomp,
    runEvents_cons_ok _ _ _ _ (pstep_inert initState _ rfl rfl rfl (by decide)),
    runEvents_cons_ok _ _ _ _ (pstep_inert initState _ rfl rfl rfl (by decide)),
    runEvents_cons_ok _ _ _ _
      (show pstep initState ⟨"result".data, "start_array", none⟩ =
        .ok ⟨false, true, false, ⟨[], none⟩, 0, []⟩ from rfl),
    runEvents_append_ok _ _ _ _
      (run_obj_item [("a".data, .num 1)] ⟨false, true, false, ⟨[], none⟩, 0, []⟩ rfl rfl)]
  rfl

/-- Pulling the single result out of `one()` on a plain 200 GET. -/
theorem one_200 (ev : List JEvent) (roe : Bool) :
    (Response.one ⟨⟨200, "GET", ev⟩, roe⟩).1 = oneOf (parse_response true ev) := by
  show oneOf (Response.all ⟨⟨200, "GET", ev⟩, true⟩) = _
  rw [all_get200]

/-- The non-raising 404 branch: the gate yields `[{}]` and then falls
through to parsing the raw body of the 404 response. -/
theorem all_404_false (ev : List JEvent) :
    Response.all ⟨⟨404, "GET", ev⟩, false⟩ =
      { records := .obj [] :: (parse_response false ev).records,
        err := (parse_response false ev).err,
        count := (parse_response false ev).count } := by
  show get_validated_response ⟨404, "GET", ev⟩ false = _
  unfold get_validated_response
  rw [if_neg (by simp), if_pos (by dsimp only; omega), if_pos (by rfl),
    if_neg Bool.false_ne_true]

/-- Rewriting `_parse_response` through a computed run of the event
loop (stated over a variable event list so instantiation never forces
the event stream). -/
theorem parse_response_of_run_ok (roe : Bool) (es : List JEvent) (s : PState)
    (h : runEvents initState es = .ok s) :
    parse_response roe es = finishParse roe s := by
  unfold parse_response
  rw [h]

theorem parse_response_of_run_error (roe : Bool) (es : List JEvent)
    (x : PState × JVal) (h : runEvents initState es = .error x) :
    parse_response roe es = ⟨x.1.yielded, some (.responseError x.2), x.1.count⟩ := by
  unfold parse_response
  rw [h]

/-! Claim theorems. -/

/-- C1 (counterexample): the claim that the parse raises `ResponseError`
as soon as the error subtree closes "regardless of whether a `result` key
also appeared earlier" is false on the code: for the concrete document
`{"result": [{"a": 1}], "error": {"message": "m", "detail": "d"}}` the
pass yields the result record and completes without any error, for either
raise-on-empty setting, because the `elif` chain dispatches on
`has_result_many` before `has_error`. -/
theorem c1_counterexample :
    Response.all ⟨⟨200, "GET", jevents docC1 []⟩, false⟩ =
      ⟨[.obj [("a".data, .num 1)]], none, 1⟩ ∧
    Response.all ⟨⟨200, "GET", jevents docC1 []⟩, true⟩ =
      ⟨[.obj [("a".data, .num 1)]], none, 1⟩ := by
  constructor <;>
    (rw [all_get200, parse_response_of_run_ok _ _ _ run_docC1]
     rfl)

/-- C1 (amended): for every document whose root contains an `error`
object that is matched before any `result` key (every earlier root field
matches neither shape), the parse raises `ResponseError` carrying the
assembled error object (its `message`/`detail` fields included) as soon
as the error subtree closes, regardless of raise-on-empty and of
anything that follows in the document; no record is yielded. -/
theorem c1_error_priority (pre ef rest : List (Key × JVal)) (roe : Bool)
    (hpre : ∀ kv ∈ pre, RootFieldSafe kv) :
    Response.all ⟨⟨200, "GET",
      jevents (.obj (pre ++ ("error".data, .obj ef) :: rest)) []⟩, roe⟩ =
      ⟨[], some (.responseError (.obj ef)), 0⟩ := by
  rw [all_get200]
  exact parse_error_doc pre ef rest roe hpre

/-- C1 (witness): the amended claim at a concrete document with one
unmatched field before the error object. -/
theorem c1_error_priority_witness :
    Response.all ⟨⟨200, "GET",
      jevents (.obj ([("x".data, JVal.num 1)] ++
        ("error".data, .obj [("message".data, .str "m".data),
          ("detail".data, .str "d".data)]) :: [])) []⟩, false⟩ =
      ⟨[], some (.responseError (.obj [("message".data, .str "m".data),
        ("detail".data, .str "d".data)])), 0⟩ :=
  c1_error_priority _ _ _ false (by
    intro kv hm
    simp at hm
    subst hm
    decide)

/-- C2: for every document `{"result": [o1, ..., on]}` with `n ≥ 1` whose
items are objects, iterating `all()` yields exactly the records in
document order with no exception, and `count = n` after iteration. -/
theorem c2_result_array_all (fs : List (List (Key × JVal))) (roe : Bool)
    (h : fs ≠ []) :
    Response.all ⟨⟨200, "GET",
      jevents (.obj [("result".data, .arr (fs.map JVal.obj))]) []⟩, roe⟩ =
      ⟨fs.map JVal.obj, none, fs.length⟩ := by
  rw [all_get200]
  exact parse_result_array_pos fs roe h

/-- C2 (witness): a two-record array document. -/
theorem c2_result_array_all_witness :
    ([[("a".data, JVal.num 1)], [("b".data, JVal.num 2)]] :
      List (List (Key × JVal))) ≠ [] ∧
    Response.all ⟨⟨200, "GET",
      jevents (.obj [("result".data,
        .arr ([[("a".data, JVal.num 1)], [("b".data, JVal.num 2)]].map JVal.obj))])
        []⟩, false⟩ =
      ⟨[.obj [("a".data, .num 1)], .obj [("b".data, .num 2)]], none, 2⟩ :=
  ⟨List.cons_ne_nil _ _,
   c2_result_array_all [[("a".data, JVal.num 1)], [("b".data, JVal.num 2)]] false
     (List.cons_ne_nil _ _)⟩

/-- C3: on a 404 GET, raise-on-empty true fails with `NoResults` before
anything is yielded (as the claim says), but with raise-on-empty false the
code yields the synthetic empty record and then **continues parsing the
404 body**: for a body `{"result": [{"a": "1"}]}` it yields a second
record, contradicting "exactly one empty record and nothing else". -/
theorem c3_404_eval :
    Response.all ⟨⟨404, "GET",
      jevents (.obj [("result".data,
        .arr ([[("a".data, JVal.str "1".data)]].map JVal.obj))]) []⟩, true⟩ =
      ⟨[], some .noResults, 0⟩ ∧
    Response.all ⟨⟨404, "GET",
      jevents (.obj [("result".data,
        .arr ([[("a".data, JVal.str "1".data)]].map JVal.obj))]) []⟩, false⟩ =
      ⟨[.obj [], .obj [("a".data, .str "1".data)]], none, 1⟩ := by
  refine ⟨rfl, ?_⟩
  rw [all_404_false,
    parse_result_array_pos [[("a".data, JVal.str "1".data)]] false
      (List.cons_ne_nil _ _)]
  rfl

/-- C4 (counterexample): the claim "count equals the number of records
yielded by the pass" fails on the empty-result fallback: for
`{"result": []}` with raise-on-empty false the pass yields one empty
record while `count` stays 0. -/
theorem c4_count_mismatch :
    (parse_response false (jevents (.obj [("result".data, .arr [])]) [])).records.length
       = 1 ∧
    (parse_response false (jevents (.obj [("result".data, .arr [])]) [])).count = 0 := by
  rw [parse_result_array_nil false]
  constructor <;> rfl

/-- C4 (amended): count starts at 0 and, throughout the event loop of a
pass, equals the number of records yielded so far (it is incremented
exactly once per record yielded from a matched `result` subtree, and the
invariant also holds at a `ResponseError` exit).  After the pass
completes, count equals the number of records yielded — except in the
empty-result fallback, where the single synthetic empty record `{}` is
yielded without incrementing count, so the pass ends with one record and
`count = 0`. -/
theorem c4_count_invariant :
    initState.count = 0 ∧
    (∀ (es : List JEvent) (s2 : PState), runEvents initState es = .ok s2 →
      s2.count = s2.yielded.length) ∧
    (∀ (es : List JEvent) (x : PState × JVal), runEvents initState es = .error x →
      x.1.count = x.1.yielded.length) ∧
    (∀ (roe : Bool) (es : List JEvent),
      (parse_response roe es).count = (parse_response roe es).records.length ∨
        ((parse_response roe es).count = 0 ∧
          (parse_response roe es).records = [.obj []])) := by
  refine ⟨rfl, ?_, ?_, ?_⟩
  · intro es s2 hrun
    have hg := runEvents_count es initState rfl
    rw [hrun] at hg
    exact hg
  · intro es x hrun
    have hg := runEvents_count es initState rfl
    rw [hrun] at hg
    exact hg
  · intro roe es
    have hg := runEvents_count es initState rfl
    cases hr : runEvents initState es with
    | error x =>
      rw [hr] at hg
      left
      simp [parse_response, hr, hg]
    | ok s2 =>
      rw [hr] at hg
      simp only [parse_response, hr]
      unfold finishParse
      split_ifs with hc1 hc2 hc3
      · left
        simpa using hg
      · right
        have hcount : s2.count = 0 := by
          have h2 := hc1
          simp only [Bool.and_eq_true, beq_iff_eq] at h2
          exact h2.2
        have hy : s2.yielded = [] := by
          have : s2.yielded.length = 0 := by rw [← hg, hcount]
          exact List.length_eq_zero.mp this
        simp [hcount, hy]
      · left
        simpa using hg
      · left
        simpa using hg

/-- C4 (witness): the event-loop invariant at the empty stream, and the
completion disjunction at the empty-result document. -/
theorem c4_count_invariant_witness :
    initState.count = initState.yielded.length ∧
    ((parse_response false (jevents (.obj [("result".data, .arr [])]) [])).count =
        (parse_response false
          (jevents (.obj [("result".data, .arr [])]) [])).records.length ∨
      ((parse_response false (jevents (.obj [("result".data, .arr [])]) [])).count = 0 ∧
        (parse_response false (jevents (.obj [("result".data, .arr [])]) [])).records =
          [.obj []])) :=
  ⟨c4_count_invariant.2.1 [] initState rfl, c4_count_invariant.2.2.2 false _⟩

/-- C5: for `{"result": []}`, `all()` yields exactly one empty record when
raise-on-empty is false, and fails with `NoResults` (yielding nothing)
when raise-on-empty is true. -/
theorem c5_empty_result :
    Response.all ⟨⟨200, "GET",
      jevents (.obj [("result".data, .arr [])]) []⟩, false⟩ =
      ⟨[.obj []], none, 0⟩ ∧
    Response.all ⟨⟨200, "GET",
      jevents (.obj [("result".data, .arr [])]) []⟩, true⟩ =
      ⟨[], some .noResults, 0⟩ := by
  constructor <;>
    (rw [all_get200, parse_result_array_nil]
     rfl)

/-- C6: `one()` on `{"result": [o1, o2]}` fails with `MultipleResults`,
and `one()` on `{"result": [o1]}` returns `o1`, whatever the configured
raise-on-empty flag. -/
theorem c6_one_cardinality :
    (∀ (f1 f2 : List (Key × JVal)) (roe : Bool),
      (Response.one ⟨⟨200, "GET",
        jevents (.obj [("result".data, .arr ([f1, f2].map JVal.obj))]) []⟩, roe⟩).1 =
        .error .multipleResults) ∧
    (∀ (f1 : List (Key × JVal)) (roe : Bool),
      (Response.one ⟨⟨200, "GET",
        jevents (.obj [("result".data, .arr ([f1].map JVal.obj))]) []⟩, roe⟩).1 =
        .ok (.obj f1)) := by
  constructor
  · intro f1 f2 roe
    rw [one_200, parse_result_array_pos [f1, f2] true (List.cons_ne_nil _ _)]
    simp [oneOf]
  · intro f1 roe
    rw [one_200, parse_result_array_pos [f1] true (List.cons_ne_nil _ _)]
    simp [oneOf]

/-- C7: for every document `{"result": {...}}`, `all()` yields exactly
one record equal to that object, with no exception, and `count = 1`. -/
theorem c7_result_single_all (f : List (Key × JVal)) (roe : Bool) :
    Response.all ⟨⟨200, "GET",
      jevents (.obj [("result".data, .obj f)]) []⟩, roe⟩ =
      ⟨[.obj f], none, 1⟩ := by
  rw [all_get200]
  exact parse_result_single f roe

/-- C8: every valid document whose root matches neither a `result` key
(object or array) nor an `error` object makes any accessor fail with
`MissingResult` without yielding records. -/
theorem c8_missing_result (v : JVal) (roe : Bool) (h : rootMatches v = false) :
    Response.all ⟨⟨200, "GET", jevents v []⟩, roe⟩ =
      ⟨[], some .missingResult, 0⟩ := by
  rw [all_get200]
  exact parse_unmatched v roe h

/-- C8 (witness): the document `{"unexpected": 1}`. -/
theorem c8_missing_result_witness :
    rootMatches (.obj [("unexpected".data, JVal.num 1)]) = false ∧
    Response.all ⟨⟨200, "GET",
      jevents (.obj [("unexpected".data, JVal.num 1)]) []⟩, false⟩ =
      ⟨[], some .missingResult, 0⟩ :=
  ⟨by decide, c8_missing_result _ false (by decide)⟩

/-- C9: each of `first()`, `first_or_none()`, `one()` and `one_or_none()`
permanently sets `_raise_on_empty` to `True` on the `Response` object, so
every later accessor call on the returned object behaves exactly as on a
`Response` constructed with raise-on-empty true, whatever flag the object
was constructed with. -/
theorem c9_accessors_set_raise_on_empty (r : Response) :
    (r.first).2 = { _response := r._response, _raise_on_empty := true } ∧
    (r.first_or_none).2 = { _response := r._response, _raise_on_empty := true } ∧
    (r.one).2 = { _response := r._response, _raise_on_empty := true } ∧
    (r.one_or_none).2 = { _response := r._response, _raise_on_empty := true } ∧
    ((r.first).2).all = Response.all ⟨r._response, true⟩ ∧
    ((r.first).2).first = Response.first ⟨r._response, true⟩ ∧
    ((r.one).2).one = Response.one ⟨r._response, true⟩ :=
  ⟨rfl, rfl, rfl, rfl, rfl, rfl, rfl⟩

/-- C10: `set_token` stores `None` for a falsy argument; raises
`InvalidUsage` leaving the stored token unchanged when the argument is
truthy but is not a dict or misses one of the six expected keys; and
stores the token otherwise. -/
theorem c10_set_token :
    (∀ (c : OAuthClient) (t : JVal), pyFalsy t = true →
      c.set_token t = (none, { c with token := none })) ∧
    (∀ (c : OAuthClient) (t : JVal), pyFalsy t = false →
      (t.isDict && keysSubset t) = false →
      c.set_token t = (some invalid_usage_msg, c)) ∧
    (∀ (c : OAuthClient) (t : JVal), pyFalsy t = false →
      (t.isDict && keysSubset t) = true →
      c.set_token t = (none, { c with token := some t })) := by
  refine ⟨?_, ?_, ?_⟩
  · intro c t h1
    simp [OAuthClient.set_token, h1]
  · intro c t h1 h2
    simp [OAuthClient.set_token, h1, h2]
  · intro c t h1 h2
    simp [OAuthClient.set_token, h1, h2]

/-- C10 (witness): a falsy argument, a truthy non-dict, and a complete
token dict. -/
theorem c10_set_token_witness :
    OAuthClient.set_token ⟨none⟩ .null = (none, ⟨none⟩) ∧
    OAuthClient.set_token ⟨none⟩ (.num 5) = (some invalid_usage_msg, ⟨none⟩) ∧
    OAuthClient.set_token ⟨none⟩
        (.obj [("token_type".data, .str "t".data),
               ("refresh_token".data, .str "r".data),
               ("access_token".data, .str "a".data),
               ("scope".data, .str "s".data),
               ("expires_in".data, .num 1),
               ("expires_at".data, .num 2)]) =
      (none, ⟨some (.obj [("token_type".data, .str "t".data),
               ("refresh_token".data, .str "r".data),
               ("access_token".data, .str "a".data),
               ("scope".data, .str "s".data),
               ("expires_in".data, .num 1),
               ("expires_at".data, .num 2)])⟩) :=
  ⟨c10_set_token.1 ⟨none⟩ .null rfl,
   c10_set_token.2.1 ⟨none⟩ (.num 5) (by decide) (by decide),
   c10_set_token.2.2 ⟨none⟩ _ (by decide) (by decide)⟩
